import Mathlib

/-!
# Verification of the `alacran` valuation engine

Shallow embedding of the core of the repository (`src/instruments/`):
monetary values and compensated summation (`value.rs`), the two currency
conversion tables (`value.rs` and `convert.rs`), the compound interest
model and the instrument assessment algorithm (`item.rs`), the portfolio
arena (`book.rs`) and the risk decorator (`risk.rs`).

Modelling conventions:
* `f64` amounts and rates are modelled as real numbers (`ℝ`); `powf` is
  modelled as real exponentiation (`Real.rpow`).
* `DateTime<Utc>` instants and `TimeDelta` durations are modelled as `ℤ`
  (nanoseconds since the epoch / nanosecond counts), matching the code's
  `num_nanoseconds()`-based arithmetic.
* `Currency(&'static str)` is modelled as `String`; its derived `PartialEq`
  compares string contents.
* A Rust computation that can panic (an `unwrap` on `None`/a missing key)
  is modelled with `RustResult`: `RustResult.panic` denotes a Rust panic,
  while genuinely recoverable failures (`Option`-returning APIs such as
  `ConversionTable::convert`) are modelled with `Option` and `none`.
* The `SlotMap` arena of `Book` is modelled as an association list together
  with a monotone counter handing out fresh `Nat` keys; iteration order is
  list order and insertion appends at the end.
-/

noncomputable section

/-- Models `Currency` (`value.rs`): an interned string identifier. -/
abbrev Currency := String

/-- Models `Currency::null` (`value.rs`): the `"NAN"` placeholder. -/
def Currency.null : Currency := "NAN"

/-- Models `ConversionTable` of `value.rs`: a
`HashMap<Currency, HashMap<Currency, f64>>`, flattened to a map from an
ordered pair of currencies to an optional factor (a missing outer key and a
missing inner key both flatten to `none`). -/
structure ConversionTable where
  mappings : Currency → Currency → Option ℝ

/-- Models `ConversionTable::new` (`value.rs`): an empty table. -/
def ConversionTable.new : ConversionTable := { mappings := fun _ _ => none }

/-- Models `ConversionTable::add_conversion` (`value.rs`): inserts
`source → target ↦ factor`, then `target → source ↦ 1/factor` (the second
insertion happens after the first, so when `source = target` the stored
factor ends up being `1/factor`, exactly as with the two sequential
`HashMap` inserts in the code). -/
def ConversionTable.add_conversion (tbl : ConversionTable) (source target : Currency)
    (factor : ℝ) : ConversionTable :=
  { mappings := fun a b =>
      if a = target ∧ b = source then some (1 / factor)
      else if a = source ∧ b = target then some factor
      else tbl.mappings a b }

/-- Models `Value` (`value.rs`): an amount tagged with a currency and an
optional reference to a conversion table. -/
structure Value where
  currency : Currency
  conversion_table : Option ConversionTable
  amount : ℝ

/-- Models `ConversionTable::convert` (`value.rs`): a direct lookup of the
ordered pair `(value.currency, target)`; on success the produced value is
`factor * value.amount` in the target currency, carrying the table itself.
A `none` result models the recoverable "no route" failure (the Rust
function returns `Option`). -/
def ConversionTable.convert (tbl : ConversionTable) (value : Value) (target : Currency) :
    Option Value :=
  match tbl.mappings value.currency target with
  | none => none
  | some factor =>
      some { amount := factor * value.amount, currency := target,
             conversion_table := some tbl }

/-- Models a fresh leaked empty table, as produced by
`ConversionTable::new().free()` in `Value::dummy`. -/
def ConversionTable.free : ConversionTable := ConversionTable.new

/-- Models `Value::new` (`value.rs`). -/
def Value.new (cur : Currency) (amount : ℝ) (table : ConversionTable) : Value :=
  { amount := amount, currency := cur, conversion_table := some table }

/-- Models `Value::dummy` (`value.rs`): `Value::new` with a fresh empty
conversion table. -/
def Value.dummy (cur : Currency) (amount : ℝ) : Value :=
  Value.new cur amount ConversionTable.free

/-- Models `Value::zero` (`value.rs`). -/
def Value.zero (cur : Currency) (table : ConversionTable) : Value :=
  Value.new cur 0 table

/-- Models `Value::negate` (`value.rs`): flip the sign, keep currency and
table. -/
def Value.negate (v : Value) : Value :=
  { amount := v.amount * (-1), conversion_table := v.conversion_table,
    currency := v.currency }

/-- Models `impl Mul<f64> for Value` (`value.rs`): scale the amount, keep
currency and table. -/
def Value.mul (v : Value) (rhs : ℝ) : Value :=
  { amount := v.amount * rhs, conversion_table := v.conversion_table,
    currency := v.currency }

/-- The outcome of a Rust computation that can panic: `ok` is a normal
return, `panic` models a Rust panic (e.g. `Option::unwrap` on `None`).
Recoverable failures are *not* represented here — they keep their
`Option` type in the embedding. -/
inductive RustResult (α : Type) where
  | ok (val : α)
  | panic
deriving Repr

/-- Map over the normal result, propagating a panic. -/
def RustResult.map {α β : Type} (f : α → β) : RustResult α → RustResult β
  | .ok a => .ok (f a)
  | .panic => .panic

/-- Models `impl Add<Value> for Value` (`value.rs`).
Same currency: amounts add, the currency is taken from the right operand
(equal to the left's) and the table from the left operand.
Different currencies: the code evaluates
`self.conversion_table.unwrap().convert(rhs, self.currency).unwrap() + self`;
both `unwrap`s panic on `None`, and the inner `+` is then a same-currency
addition (the converted value carries `self.currency`), which is inlined
here: amount `converted.amount + self.amount`, currency `self.currency`,
table `converted.conversion_table`. -/
def Value.add (self rhs : Value) : RustResult Value :=
  if self.currency = rhs.currency then
    .ok { amount := self.amount + rhs.amount,
          conversion_table := self.conversion_table, currency := rhs.currency }
  else
    match self.conversion_table with
    | none => .panic
    | some tab =>
        match tab.convert rhs self.currency with
        | none => .panic
        | some conv =>
            .ok { amount := conv.amount + self.amount,
                  conversion_table := conv.conversion_table,
                  currency := self.currency }

/-- Models `fast2sum` (`value.rs`): returns the sum and the compensation
term. -/
def fast2sum (a b : ℝ) : ℝ × ℝ :=
  (a + b, b - ((a + b) - a))

/-- The loop body of `kahan_sum` (`value.rs`), with the running sum,
compensation, last-seen currency and last-seen table made explicit. -/
def kahanGo : List Value → ℝ → ℝ → Currency → Option ConversionTable → Value
  | [], sum, _c, cur, tab =>
      { amount := sum, currency := cur, conversion_table := tab }
  | item :: rest, sum, c, _cur, _tab =>
      let y := item.amount + c
      let p := fast2sum sum y
      kahanGo rest p.1 p.2 item.currency item.conversion_table

/-- Models `kahan_sum` (`value.rs`): compensated summation starting from
`sum = 0`, `c = 0`, currency `"CAD"`, no table. The `Sum` impls for
`Value` delegate to this function. -/
def kahan_sum (l : List Value) : Value :=
  kahanGo l 0 0 "CAD" none

/-- Models `ConversionTable` of `convert.rs`: a `Vec` of directed triples
behind an `RwLock` (the lock disappears in this sequential model). -/
structure VecConversionTable where
  mappings : List (Currency × Currency × ℝ)

/-- Models `ConversionTable::new` (`convert.rs`). -/
def VecConversionTable.new : VecConversionTable := { mappings := [] }

/-- Models `ConversionTable::add_conversion` (`convert.rs`): pushes the
forward triple and then the inverse triple at the end of the vector;
nothing is overwritten. -/
def VecConversionTable.add_conversion (tbl : VecConversionTable)
    (source target : Currency) (factor : ℝ) : VecConversionTable :=
  { mappings := tbl.mappings ++ [(source, target, factor), (target, source, 1 / factor)] }

/-- Models `ConversionTable::convert` (`convert.rs`): linear scan with
`Iterator::find`, so the *first* matching triple wins; the produced value
is `Value::dummy(target, value.amount * factor)`. -/
def VecConversionTable.convert (tbl : VecConversionTable) (value : Value)
    (target : Currency) : Option Value :=
  (tbl.mappings.find? (fun m => m.1 == value.currency && m.2.1 == target)).map
    (fun m => Value.dummy target (value.amount * m.2.2))

/-- Models `ItemKey` (`book.rs`): an opaque stable arena handle. -/
abbrev ItemKey := Nat

/-- Models `Interest` (`item.rs`): a per-period rate and a period
duration (nanoseconds). -/
structure Interest where
  percent : ℝ
  period : ℤ

/-- Models `Interest::new` (`item.rs`). -/
def Interest.new (percent : ℝ) (period : ℤ) : Interest :=
  { percent := percent, period := period }

/-- Models `Interest::apply` (`item.rs`): the elapsed nanoseconds divided
by the period nanoseconds gives the real-valued number of periods; the
value is scaled by `(1 + percent) ^ periods` (real exponentiation models
`f64::powf`). -/
def Interest.apply (i : Interest) (inception current_time : ℤ) (value : Value) : Value :=
  Value.mul value ((1 + i.percent) ^ (((current_time - inception : ℤ) : ℝ) / ((i.period : ℤ) : ℝ)))

/-- Models `Payout` (`item.rs`): declared but never read by `assess`. -/
inductive Payout where
  | OneTime (amount : Value) (time : ℤ)
  | InterestOneTime (principal : Value) (time : ℤ) (interest : Interest)
  | FixedRecurring (amount : Value) (start : ℤ) (frequency : ℤ)
  | InterestRecurring (principal : Value) (start : ℤ) (frequency : ℤ) (interest : Interest)

/-- Models `Item` (`item.rs` / `book.rs`): a book value, optional interest
model, inception time, child handles, timestamped deltas and (unused)
payouts. -/
structure Item where
  book_value : Value
  interest : Option Interest
  inception : ℤ
  children : List ItemKey
  deltas : List (ℤ × Value)
  payouts : List Payout

/-- Models `Item::fixed` (`item.rs`). -/
def Item.fixed (value : Value) (inception : ℤ) : Item :=
  { book_value := value, children := [], inception := inception,
    interest := none, deltas := [], payouts := [] }

/-- Models `Item::basic_debt` (`item.rs`). -/
def Item.basic_debt (value : Value) (interest : ℝ) (period : ℤ) (inception : ℤ) : Item :=
  { book_value := value, children := [], inception := inception,
    interest := some { percent := interest, period := period },
    deltas := [], payouts := [] }

/-- Models `Item::add_delta` (`item.rs`): push the new pair and re-sort the
whole list ascending by timestamp (`sort_by_key` is a stable merge sort). -/
def Item.add_delta (it : Item) (time : ℤ) (value : Value) : Item :=
  { it with deltas := (it.deltas ++ [(time, value)]).mergeSort (fun a b => a.1 ≤ b.1) }

/-- Models `Item::add_child` (`item.rs`). -/
def Item.add_child (it : Item) (key : ItemKey) : Item :=
  { it with children := it.children ++ [key] }

/-- The `for (rtime, payment) in &self.deltas` loop of `Item::assess`
(`item.rs`), with the running anchor (`incep`) and running book made
explicit: the loop breaks at the first delta with `rtime > time`, and
otherwise compounds the book from the anchor to the delta's timestamp,
adds the payment (a `+` that can panic) and advances the anchor. Returns
the final anchor and book. -/
def deltaLoop (i : Interest) (time : ℤ) (incep : ℤ) (book : Value) :
    List (ℤ × Value) → RustResult (ℤ × Value)
  | [] => .ok (incep, book)
  | (rtime, payment) :: rest =>
      if time < rtime then .ok (incep, book)
      else
        match (i.apply incep rtime book).add payment with
        | .panic => .panic
        | .ok newBook => deltaLoop i time rtime newBook rest

/-- Models `Item::assess` (`item.rs`, identical in the `book.rs` copy):
empty deltas with interest → compound the book value from inception;
empty deltas without interest → the book value unchanged; deltas with
interest → the `deltaLoop` walk followed by a final compounding from the
last anchor to `time`; deltas without interest → the book value plus the
(kahan) sum of *all* delta amounts, with no filtering by `time`. -/
def Item.assess (it : Item) (time : ℤ) : RustResult Value :=
  if it.deltas.isEmpty then
    match it.interest with
    | some i => .ok (i.apply it.inception time it.book_value)
    | none => .ok it.book_value
  else
    match it.interest with
    | some i =>
        match deltaLoop i time it.inception it.book_value it.deltas with
        | .panic => .panic
        | .ok (incep, book) => .ok (i.apply incep time book)
    | none => it.book_value.add (kahan_sum (it.deltas.map (fun d => d.2)))

/-- Models `<Item as Assesible>::currency` (`item.rs`). -/
def Item.currency (it : Item) : Currency :=
  it.book_value.currency

/-- Models `Interest::interest` (`item.rs`): the compounded value plus the
negated principal. -/
def Interest.interest (i : Interest) (inception current_time : ℤ) (value : Value) :
    RustResult Value :=
  (i.apply inception current_time value).add value.negate

/-- Arena lookup, models `SlotMap::get` / `get_mut` on the association-list
model of the arena: the entry with the matching key. -/
def getEntry : List (ItemKey × Item) → ItemKey → Option Item
  | [], _ => none
  | (k, v) :: rest, key => if k = key then some v else getEntry rest key

/-- In-place update of the entry with the matching key, models the write
through `SlotMap::get_mut`. -/
def setEntry : List (ItemKey × Item) → ItemKey → Item → List (ItemKey × Item)
  | [], _, _ => []
  | (k, v) :: rest, key, item =>
      if k = key then (k, item) :: rest else (k, v) :: setEntry rest key item

/-- Models `Book` (`book.rs`): a `SlotMap` arena, modelled as an
association list plus a fresh-key counter. -/
structure Book where
  nextKey : ItemKey
  entries : List (ItemKey × Item)

/-- Models `Book::default`: an empty arena. -/
def Book.default : Book := { nextKey := 0, entries := [] }

/-- Models `Book::add` (`book.rs`): insert under a fresh key, return the
key. -/
def Book.add (b : Book) (item : Item) : Book × ItemKey :=
  ({ nextKey := b.nextKey + 1, entries := b.entries ++ [(b.nextKey, item)] }, b.nextKey)

/-- Models `Book::add_child` (`book.rs`): *first* insert the new item into
the arena, *then* resolve the parent handle (`get_mut(parent).unwrap()`,
a panic when it does not resolve) and push the fresh key onto the parent's
children. On panic the arena keeps the already-inserted new item. -/
def Book.add_child (b : Book) (new : Item) (parent : ItemKey) : Book × RustResult ItemKey :=
  let key := b.nextKey
  let b1 : Book := { nextKey := b.nextKey + 1, entries := b.entries ++ [(b.nextKey, new)] }
  match getEntry b1.entries parent with
  | none => (b1, RustResult.panic)
  | some p =>
      ({ b1 with entries := setEntry b1.entries parent { p with children := p.children ++ [key] } },
       RustResult.ok key)

/-- Collect a list of fallible results, propagating the first panic; models
a Rust iterator of panicking computations being drained. -/
def RustResult.collect {α : Type} : List (RustResult α) → RustResult (List α)
  | [] => .ok []
  | .panic :: _ => .panic
  | .ok a :: rest => (RustResult.collect rest).map (fun l => a :: l)

/-- Models `<Book as Assesible>::assess` (`book.rs`): assess every arena
entry (in iteration order, parent/child links ignored) and fold the values
with the compensated `Sum` impl (`kahan_sum`); a panic in any entry's
assessment propagates. -/
def Book.assess (b : Book) (time : ℤ) : RustResult Value :=
  (RustResult.collect (b.entries.map (fun e => e.2.assess time))).map kahan_sum

/-- Models `<Book as Assesible>::currency` (`book.rs`):
`entries.iter().nth(0).unwrap()` — the first entry's currency, panicking
on an empty arena. -/
def Book.currency (b : Book) : RustResult Currency :=
  match b.entries with
  | [] => .panic
  | e :: _ => .ok e.2.currency

/-- Models the `Assesible` trait (`mod.rs`) as a dictionary of its two
methods; `currency` may panic (the `Book` impl unwraps), hence the
`RustResult`. -/
structure Assesible (A : Type) where
  assess : A → ℤ → RustResult Value
  currency : A → RustResult Currency

/-- The `Assesible` impl of `Item`. -/
def itemAssesible : Assesible Item :=
  { assess := Item.assess, currency := fun it => .ok it.currency }

/-- The `Assesible` impl of `Book`. -/
def bookAssesible : Assesible Book :=
  { assess := Book.assess, currency := Book.currency }

/-- Models `Risk` (`risk.rs`): the two loss policies wrapping an inner
assesible asset. -/
inductive Risk (A : Type) where
  | CertainLossPercentage (asset : A) (percent : ℝ)
  | LosePercentOverTime (asset : A) (percent : ℝ) (period : ℤ) (starting : ℤ)

/-- Models `<Risk<A> as Assesible>::assess` (`risk.rs`): an instant cut
scales the inner assessment by `percent`; time-based loss returns the
inner assessment unmodified strictly before `starting` and otherwise
scales it by `(1 - percent) ^ ((time - starting) / period)`. -/
def Risk.assess {A : Type} (inst : Assesible A) : Risk A → ℤ → RustResult Value
  | .CertainLossPercentage asset percent, time =>
      (inst.assess asset time).map (fun v => v.mul percent)
  | .LosePercentOverTime asset percent period starting, time =>
      if time < starting then inst.assess asset time
      else
        (inst.assess asset time).map
          (fun v => v.mul ((1 - percent) ^ (((time - starting : ℤ) : ℝ) / ((period : ℤ) : ℝ))))

/-- Models `<Risk<A> as Assesible>::currency` (`risk.rs`): delegate to the
inner asset in both variants. -/
def Risk.currency {A : Type} (inst : Assesible A) : Risk A → RustResult Currency
  | .CertainLossPercentage asset _ => inst.currency asset
  | .LosePercentOverTime asset _ _ _ => inst.currency asset

/-- Spec-side description of the delta walk of `Item::assess` (§4.4 of the
spec): process *exactly* the deltas whose timestamp is `≤ time` (the caller
pre-filters; there is no early stop), compounding the running book from
the anchor to each delta's timestamp, adding the delta amount and
advancing the anchor. Returns the final anchor and book. -/
def specDeltaWalk (i : Interest) (incep : ℤ) (book : Value) :
    List (ℤ × Value) → RustResult (ℤ × Value)
  | [] => .ok (incep, book)
  | (rtime, payment) :: rest =>
      match (i.apply incep rtime book).add payment with
      | .panic => .panic
      | .ok newBook => specDeltaWalk i rtime newBook rest

/-! ## Helper lemmas about compensated summation -/

/-- The running amount of the kahan loop on a non-empty list: over the
reals the compensation term vanishes after each step, so the loop computes
the plain sum on top of the incoming `sum` and `c`. -/
theorem kahanGo_cons (a : Value) (l : List Value) (s c : ℝ) (cur : Currency)
    (tab : Option ConversionTable) :
    kahanGo (a :: l) s c cur tab
      = kahanGo l (s + (a.amount + c)) ((a.amount + c) - ((s + (a.amount + c)) - s))
          a.currency a.conversion_table := rfl

theorem kahanGo_amount (a : Value) (l : List Value) : ∀ (s c : ℝ) (cur : Currency)
    (tab : Option ConversionTable),
    (kahanGo (a :: l) s c cur tab).amount
      = s + c + ((a :: l).map Value.amount).sum := by
  induction l generalizing a with
  | nil => intro s c cur tab; simp [kahanGo, fast2sum]; ring
  | cons b rest ih =>
      intro s c cur tab
      rw [kahanGo_cons, ih]
      simp only [List.map_cons, List.sum_cons]
      ring

/-- The currency of the kahan loop over a list with a last element is that
last element's currency. -/
theorem kahanGo_currency (l : List Value) : ∀ (v : Value) (s c : ℝ)
    (cur : Currency) (tab : Option ConversionTable),
    (kahanGo (l ++ [v]) s c cur tab).currency = v.currency := by
  induction l with
  | nil => intro v s c cur tab; simp [kahanGo]
  | cons a rest ih =>
      intro v s c cur tab
      simp only [List.cons_append, kahanGo]
      exact ih v _ _ _ _

/-- The amount computed by `kahan_sum` is the plain sum of the amounts. -/
theorem kahan_sum_amount (l : List Value) :
    (kahan_sum l).amount = (l.map Value.amount).sum := by
  cases l with
  | nil => simp [kahan_sum, kahanGo]
  | cons a rest => rw [kahan_sum, kahanGo_amount]; simp

/-- C6: the compensated summation (`kahan_sum`, the `Sum` impls) returns a
value whose currency is the currency of the last term visited; only the
amounts are summed (no conversion of mixed-currency terms); the empty sum
is `0.0` tagged with the fixed placeholder currency `"CAD"` and no table. -/
theorem C6_kahan_sum_last_currency_and_empty_default :
    (∀ (l : List Value) (v : Value), (kahan_sum (l ++ [v])).currency = v.currency) ∧
    (∀ l : List Value, (kahan_sum l).amount = (l.map Value.amount).sum) ∧
    kahan_sum [] = { amount := 0, currency := "CAD", conversion_table := none } := by
  refine ⟨?_, ?_, ?_⟩
  · intro l v; exact kahanGo_currency l v 0 0 "CAD" none
  · exact kahan_sum_amount
  · rfl

/-- C3: an instrument with no interest model and a non-empty delta list
(all deltas sharing the book value's currency) assesses, at *every* time
`t`, to the book value plus the sum of *all* delta amounts — deltas dated
after `t` are included, unlike in the interest branch. -/
theorem C3_assess_no_interest_sums_all_deltas (it : Item) (t : ℤ)
    (hi : it.interest = none) (hne : it.deltas ≠ [])
    (hc : ∀ d ∈ it.deltas, (d.2).currency = it.book_value.currency) :
    it.assess t = RustResult.ok
      { amount := it.book_value.amount + ((it.deltas.map (fun d => d.2.amount)).sum),
        currency := it.book_value.currency,
        conversion_table := it.book_value.conversion_table } := by
  have hcur : (kahan_sum (it.deltas.map (fun d => d.2))).currency
      = it.book_value.currency := by
    rcases List.eq_nil_or_concat it.deltas with h | ⟨L, d, h⟩
    · exact absurd h hne
    · rw [h, List.concat_eq_append, List.map_append]
      simp only [List.map_cons, List.map_nil]
      rw [kahan_sum, kahanGo_currency]
      exact hc d (by rw [h]; simp)
  have hamt : (kahan_sum (it.deltas.map (fun d => d.2))).amount
      = (it.deltas.map (fun d => d.2.amount)).sum := by
    rw [kahan_sum_amount, List.map_map]
    rfl
  rw [Item.assess]
  have hemp : it.deltas.isEmpty = false := by
    simpa [List.isEmpty_iff] using hne
  rw [hemp]
  simp only [Bool.false_eq_true, if_false, hi]
  rw [Value.add, if_pos hcur.symm, hcur, hamt]

/-! ## Value addition (C4) -/

/-- C4 counterexample: adding two values of different currencies when no
direct rate is registered does *not* surface a recoverable error — the
code evaluates `self.conversion_table.unwrap().convert(..).unwrap()`, so
the failure is a Rust panic (`RustResult.panic` in this embedding), which
contradicts "surfaced to the immediate caller as a recoverable error (not
a panic/abort)". -/
theorem C4_cex_add_without_route_panics :
    Value.add { currency := "CAD", conversion_table := some ConversionTable.new, amount := 1 }
      { currency := "USD", conversion_table := none, amount := 1 }
      = RustResult.panic := rfl

/-- C4 (amended): same-currency addition sums the amounts and keeps that
currency; with differing currencies the right operand is converted into
the left's currency via the left's table and added; but a missing table or
a missing direct rate makes the addition *panic* (the two `unwrap`s) — the
recoverable (`Option`) surface is `ConversionTable::convert` itself. -/
theorem C4_value_add_semantics :
    (∀ v w : Value, v.currency = w.currency →
      v.add w = RustResult.ok { amount := v.amount + w.amount, currency := w.currency,
                                conversion_table := v.conversion_table }) ∧
    (∀ (v w : Value) (T : ConversionTable) (f : ℝ), v.currency ≠ w.currency →
      v.conversion_table = some T → T.mappings w.currency v.currency = some f →
      v.add w = RustResult.ok { amount := f * w.amount + v.amount, currency := v.currency,
                                conversion_table := some T }) ∧
    (∀ v w : Value, v.currency ≠ w.currency → v.conversion_table = none →
      v.add w = RustResult.panic) ∧
    (∀ (v w : Value) (T : ConversionTable), v.currency ≠ w.currency →
      v.conversion_table = some T → T.mappings w.currency v.currency = none →
      v.add w = RustResult.panic) ∧
    (∀ (T : ConversionTable) (v : Value) (tgt : Currency),
      T.mappings v.currency tgt = none → T.convert v tgt = none) := by
  refine ⟨?_, ?_, ?_, ?_, ?_⟩
  · intro v w h
    simp [Value.add, h]
  · intro v w T f hne htab hmap
    simp [Value.add, hne, htab, ConversionTable.convert, hmap]
  · intro v w hne htab
    simp [Value.add, hne, htab]
  · intro v w T hne htab hmap
    simp [Value.add, hne, htab, ConversionTable.convert, hmap]
  · intro T v tgt hmap
    simp [ConversionTable.convert, hmap]

/-- Witness for the amended C4 theorem at concrete inputs. -/
theorem C4_value_add_semantics_witness :
    Value.add (Value.dummy "CAD" 2) (Value.dummy "CAD" 3)
        = RustResult.ok { amount := (2 : ℝ) + 3, currency := "CAD",
                          conversion_table := some ConversionTable.free }
      ∧ Value.add
          { currency := "CAD",
            conversion_table := some (ConversionTable.new.add_conversion "USD" "CAD" 2),
            amount := 5 }
          { currency := "USD", conversion_table := none, amount := 7 }
        = RustResult.ok { amount := (2 : ℝ) * 7 + 5, currency := "CAD",
                          conversion_table := some (ConversionTable.new.add_conversion "USD" "CAD" 2) }
      ∧ Value.add { currency := "CAD", conversion_table := none, amount := 1 }
          { currency := "USD", conversion_table := none, amount := 1 } = RustResult.panic
      ∧ Value.add { currency := "CAD", conversion_table := some ConversionTable.new, amount := 1 }
          { currency := "EUR", conversion_table := none, amount := 1 } = RustResult.panic
      ∧ ConversionTable.convert ConversionTable.new (Value.dummy "EUR" 1) "CAD" = none := by
  refine ⟨?_, ?_, ?_, ?_, ?_⟩
  · exact C4_value_add_semantics.1 _ _ rfl
  · exact C4_value_add_semantics.2.1 _ _ _ 2 (by decide) rfl
      (by simp [ConversionTable.add_conversion, ConversionTable.new])
  · exact C4_value_add_semantics.2.2.1 _ _ (by decide) rfl
  · exact C4_value_add_semantics.2.2.2.1 _ _ _ (by decide) rfl
      (by simp [ConversionTable.add_conversion, ConversionTable.new])
  · exact C4_value_add_semantics.2.2.2.2 _ _ _ rfl

/-- Witness for C3 at a concrete instrument: the delta is dated at time
`100`, yet it is counted when assessing at time `0`. -/
theorem C3_assess_no_interest_sums_all_deltas_witness :
    ({ book_value := Value.dummy "CAD" 7, interest := none, inception := 0,
       children := [], deltas := [((100 : ℤ), Value.dummy "CAD" 2)],
       payouts := [] } : Item).interest = none
    ∧ ({ book_value := Value.dummy "CAD" 7, interest := none, inception := 0,
         children := [], deltas := [((100 : ℤ), Value.dummy "CAD" 2)],
         payouts := [] } : Item).deltas ≠ []
    ∧ ({ book_value := Value.dummy "CAD" 7, interest := none, inception := 0,
         children := [], deltas := [((100 : ℤ), Value.dummy "CAD" 2)],
         payouts := [] } : Item).assess 0
      = RustResult.ok
          { amount := (Value.dummy "CAD" 7).amount
              + (([((100 : ℤ), Value.dummy "CAD" 2)].map (fun d => d.2.amount)).sum),
            currency := (Value.dummy "CAD" 7).currency,
            conversion_table := (Value.dummy "CAD" 7).conversion_table } := by
  refine ⟨rfl, by simp, ?_⟩
  exact C3_assess_no_interest_sums_all_deltas _ 0 rfl (by simp)
    (by intro d hd; rw [List.mem_singleton] at hd; subst hd; rfl)

/-! ## Conversion tables (C5) -/

/-- C5 counterexample: on the `Vec`-backed table of `convert.rs`,
re-registering the ordered pair `("A","B")` does *not* overwrite — lookup
scans with `find`, so the *first* registration (factor `2`) keeps winning
and the claimed result `1 × 3` is not produced. -/
theorem C5_cex_vec_table_first_registration_wins :
    ((((VecConversionTable.new.add_conversion "A" "B" 2).add_conversion "A" "B" 3).convert
        { currency := "A", conversion_table := none, amount := 1 } "B").map Value.amount
      = some 2) ∧ (2 : ℝ) ≠ 1 * 3 := by
  constructor
  · simp [VecConversionTable.convert, VecConversionTable.add_conversion,
      VecConversionTable.new, List.find?, Value.dummy, Value.new]
  · norm_num

/-- C5 (amended): for the map-backed table of `value.rs` and distinct
currencies, registering `(s, t, f)` makes converting `a` from `s` to `t`
yield `f * a` tagged `t`, and from `t` to `s` yield `(1/f) * a`;
re-registering the same ordered pair there overwrites, so the later factor
wins; `convert` returns `none` iff no directly-registered rate exists (no
multi-hop chaining). On the `Vec`-backed table of `convert.rs`, however,
lookup returns the *first* matching registration, so a re-registration
does not overwrite; its `convert` likewise fails exactly when no triple
matches. -/
theorem C5_conversion_table_semantics :
    (∀ (T0 : ConversionTable) (s t : Currency) (f a : ℝ) (tb : Option ConversionTable),
      s ≠ t →
      (T0.add_conversion s t f).convert { currency := s, conversion_table := tb, amount := a } t
        = some { amount := f * a, currency := t,
                 conversion_table := some (T0.add_conversion s t f) }) ∧
    (∀ (T0 : ConversionTable) (s t : Currency) (f a : ℝ) (tb : Option ConversionTable),
      (T0.add_conversion s t f).convert { currency := t, conversion_table := tb, amount := a } s
        = some { amount := (1 / f) * a, currency := s,
                 conversion_table := some (T0.add_conversion s t f) }) ∧
    (∀ (T0 : ConversionTable) (s t : Currency) (f g a : ℝ) (tb : Option ConversionTable),
      s ≠ t →
      ((T0.add_conversion s t f).add_conversion s t g).convert
          { currency := s, conversion_table := tb, amount := a } t
        = some { amount := g * a, currency := t,
                 conversion_table := some ((T0.add_conversion s t f).add_conversion s t g) }) ∧
    (∀ (T : ConversionTable) (v : Value) (tgt : Currency),
      T.convert v tgt = none ↔ T.mappings v.currency tgt = none) ∧
    (∀ (s t : Currency) (f g a : ℝ) (tb : Option ConversionTable),
      ((VecConversionTable.new.add_conversion s t f).add_conversion s t g).convert
          { currency := s, conversion_table := tb, amount := a } t
        = some (Value.dummy t (a * f))) ∧
    (∀ (V : VecConversionTable) (v : Value) (tgt : Currency),
      V.convert v tgt = none
        ↔ V.mappings.find? (fun m => m.1 == v.currency && m.2.1 == tgt) = none) := by
  refine ⟨?_, ?_, ?_, ?_, ?_, ?_⟩
  · intro T0 s t f a tb hst
    simp [ConversionTable.convert, ConversionTable.add_conversion, hst]
  · intro T0 s t f a tb
    simp [ConversionTable.convert, ConversionTable.add_conversion]
  · intro T0 s t f g a tb hst
    simp [ConversionTable.convert, ConversionTable.add_conversion, hst]
  · intro T v tgt
    cases h : T.mappings v.currency tgt <;> simp [ConversionTable.convert, h]
  · intro s t f g a tb
    simp [VecConversionTable.convert, VecConversionTable.add_conversion,
      VecConversionTable.new, List.find?]
  · intro V v tgt
    rw [VecConversionTable.convert, Option.map_eq_none']

/-- Witness for the amended C5 theorem at concrete currencies and rates. -/
theorem C5_conversion_table_semantics_witness :
    ("A" : Currency) ≠ "B"
    ∧ (ConversionTable.new.add_conversion "A" "B" 2).convert
          { currency := "A", conversion_table := none, amount := 5 } "B"
        = some { amount := (2 : ℝ) * 5, currency := "B",
                 conversion_table := some (ConversionTable.new.add_conversion "A" "B" 2) }
    ∧ (ConversionTable.new.add_conversion "A" "B" 2).convert
          { currency := "B", conversion_table := none, amount := 5 } "A"
        = some { amount := (1 / 2 : ℝ) * 5, currency := "A",
                 conversion_table := some (ConversionTable.new.add_conversion "A" "B" 2) }
    ∧ ((ConversionTable.new.add_conversion "A" "B" 2).add_conversion "A" "B" 3).convert
          { currency := "A", conversion_table := none, amount := 5 } "B"
        = some { amount := (3 : ℝ) * 5, currency := "B",
                 conversion_table := some ((ConversionTable.new.add_conversion "A" "B" 2).add_conversion "A" "B" 3) }
    ∧ (ConversionTable.new.convert (Value.dummy "X" 1) "Y" = none
        ↔ ConversionTable.new.mappings (Value.dummy "X" 1).currency "Y" = none)
    ∧ ((VecConversionTable.new.add_conversion "A" "B" 2).add_conversion "A" "B" 3).convert
          { currency := "A", conversion_table := none, amount := 5 } "B"
        = some (Value.dummy "B" (5 * 2))
    ∧ (VecConversionTable.new.convert (Value.dummy "X" 1) "Y" = none
        ↔ VecConversionTable.new.mappings.find?
            (fun m => m.1 == (Value.dummy "X" 1).currency && m.2.1 == "Y") = none) := by
  refine ⟨by decide, ?_, ?_, ?_, ?_, ?_, ?_⟩
  · exact C5_conversion_table_semantics.1 ConversionTable.new "A" "B" 2 5 none (by decide)
  · exact C5_conversion_table_semantics.2.1 ConversionTable.new "A" "B" 2 5 none
  · exact C5_conversion_table_semantics.2.2.1 ConversionTable.new "A" "B" 2 3 5 none (by decide)
  · exact C5_conversion_table_semantics.2.2.2.1 ConversionTable.new (Value.dummy "X" 1) "Y"
  · exact C5_conversion_table_semantics.2.2.2.2.1 "A" "B" 2 3 5 none
  · exact C5_conversion_table_semantics.2.2.2.2.2 VecConversionTable.new (Value.dummy "X" 1) "Y"

/-! ## Interest with no deltas (C2) -/

/-- With an empty delta list and an interest model present, `assess`
reduces to a single `Interest::apply` from inception. -/
theorem assess_interest_empty (it : Item) (i : Interest) (t : ℤ)
    (hi : it.interest = some i) (hd : it.deltas = []) :
    it.assess t = RustResult.ok (i.apply it.inception t it.book_value) := by
  simp [Item.assess, hd, hi]

/-- C2: with an interest model `(r, T)` and no deltas, `assess t` is the
book value scaled by `(1+r) ^ ((t - t0)/T)` — the exponent is the
real-valued quotient of the two durations, the sign of `t - t0` is
honored (no special-casing of `t` before inception), and the currency (and
table) of the result are the book value's. In particular, for a non-zero
period, `assess (t0 + k*T)` is the book value times `(1+r)^k` for every
natural `k`. -/
theorem C2_assess_interest_no_deltas (it : Item) (r : ℝ) (T : ℤ) (t : ℤ)
    (hi : it.interest = some { percent := r, period := T }) (hd : it.deltas = []) :
    it.assess t = RustResult.ok
      { amount := it.book_value.amount
          * (1 + r) ^ (((t - it.inception : ℤ) : ℝ) / ((T : ℤ) : ℝ)),
        currency := it.book_value.currency,
        conversion_table := it.book_value.conversion_table }
    ∧ (T ≠ 0 → ∀ k : ℕ, it.assess (it.inception + (k : ℤ) * T)
        = RustResult.ok (it.book_value.mul ((1 + r) ^ k))) := by
  constructor
  · rw [assess_interest_empty it _ t hi hd]
    simp [Interest.apply, Value.mul]
  · intro hT k
    rw [assess_interest_empty it _ _ hi hd]
    have hexp : (((it.inception + (k : ℤ) * T - it.inception : ℤ)) : ℝ) / ((T : ℤ) : ℝ)
        = (k : ℝ) := by
      have h1 : it.inception + (k : ℤ) * T - it.inception = (k : ℤ) * T := by ring
      rw [h1]
      push_cast
      rw [mul_div_assoc, div_self (by exact_mod_cast hT), mul_one]
    simp only [Interest.apply]
    rw [hexp, Real.rpow_natCast]

/-- Witness for C2 at a concrete debt instrument (rate 1, period 2,
inception 0): both the general formula at `t = 3` and the integer-period
corollary at `k = 4`. -/
theorem C2_assess_interest_no_deltas_witness :
    (Item.basic_debt (Value.dummy "CAD" 10) 1 2 0).interest
        = some { percent := (1 : ℝ), period := (2 : ℤ) }
    ∧ (Item.basic_debt (Value.dummy "CAD" 10) 1 2 0).deltas = []
    ∧ ((2 : ℤ) ≠ 0)
    ∧ (Item.basic_debt (Value.dummy "CAD" 10) 1 2 0).assess 3
      = RustResult.ok
          { amount := (Item.basic_debt (Value.dummy "CAD" 10) 1 2 0).book_value.amount
              * (1 + (1 : ℝ)) ^ ((((3 : ℤ)
                  - (Item.basic_debt (Value.dummy "CAD" 10) 1 2 0).inception : ℤ) : ℝ)
                  / (((2 : ℤ) : ℤ) : ℝ)),
            currency := (Item.basic_debt (Value.dummy "CAD" 10) 1 2 0).book_value.currency,
            conversion_table :=
              (Item.basic_debt (Value.dummy "CAD" 10) 1 2 0).book_value.conversion_table }
    ∧ (Item.basic_debt (Value.dummy "CAD" 10) 1 2 0).assess
          ((Item.basic_debt (Value.dummy "CAD" 10) 1 2 0).inception + ((4 : ℕ) : ℤ) * 2)
      = RustResult.ok
          ((Item.basic_debt (Value.dummy "CAD" 10) 1 2 0).book_value.mul ((1 + (1 : ℝ)) ^ (4 : ℕ))) := by
  refine ⟨rfl, rfl, by decide, ?_, ?_⟩
  · exact (C2_assess_interest_no_deltas _ 1 2 3 rfl rfl).1
  · exact (C2_assess_interest_no_deltas _ 1 2 0 rfl rfl).2 (by decide) 4

/-! ## Risk decorator (C7) -/

/-- C7: for any assesible entity wrapped in a `Risk`:
`CertainLossPercentage` scales the inner assessment by `percent` (the
surviving fraction); `LosePercentOverTime` is the identity strictly before
`starting` and otherwise scales by `(1-percent) ^ ((t-starting)/period)`;
`currency` delegates to the inner entity under both policies. -/
theorem C7_risk_assess_semantics {A : Type} (inst : Assesible A) (t : ℤ) :
    (∀ (asset : A) (percent : ℝ) (v : Value),
      inst.assess asset t = RustResult.ok v →
      (Risk.CertainLossPercentage asset percent).assess inst t
        = RustResult.ok (v.mul percent)) ∧
    (∀ (asset : A) (percent : ℝ) (period starting : ℤ), t < starting →
      (Risk.LosePercentOverTime asset percent period starting).assess inst t
        = inst.assess asset t) ∧
    (∀ (asset : A) (percent : ℝ) (period starting : ℤ) (v : Value), starting ≤ t →
      inst.assess asset t = RustResult.ok v →
      (Risk.LosePercentOverTime asset percent period starting).assess inst t
        = RustResult.ok
            (v.mul ((1 - percent) ^ (((t - starting : ℤ) : ℝ) / ((period : ℤ) : ℝ))))) ∧
    (∀ (asset : A) (percent : ℝ),
      (Risk.CertainLossPercentage asset percent).currency inst = inst.currency asset) ∧
    (∀ (asset : A) (percent : ℝ) (period starting : ℤ),
      (Risk.LosePercentOverTime asset percent period starting).currency inst
        = inst.currency asset) := by
  refine ⟨?_, ?_, ?_, ?_, ?_⟩
  · intro asset percent v h
    simp [Risk.assess, h, RustResult.map]
  · intro asset percent period starting ht
    simp [Risk.assess, ht]
  · intro asset percent period starting v hts h
    simp [Risk.assess, not_lt.mpr hts, h, RustResult.map]
  · intro asset percent; rfl
  · intro asset percent period starting; rfl

/-- Witness for C7: a fixed CAD 10 instrument wrapped in each policy. -/
theorem C7_risk_assess_semantics_witness :
    itemAssesible.assess (Item.fixed (Value.dummy "CAD" 10) 0) 5
        = RustResult.ok (Value.dummy "CAD" 10)
    ∧ (Risk.CertainLossPercentage (Item.fixed (Value.dummy "CAD" 10) 0) 2).assess
          itemAssesible 5
        = RustResult.ok ((Value.dummy "CAD" 10).mul 2)
    ∧ ((5 : ℤ) < 7)
    ∧ (Risk.LosePercentOverTime (Item.fixed (Value.dummy "CAD" 10) 0) 2 3 7).assess
          itemAssesible 5
        = itemAssesible.assess (Item.fixed (Value.dummy "CAD" 10) 0) 5
    ∧ ((3 : ℤ) ≤ 5)
    ∧ (Risk.LosePercentOverTime (Item.fixed (Value.dummy "CAD" 10) 0) 2 4 3).assess
          itemAssesible 5
        = RustResult.ok
            ((Value.dummy "CAD" 10).mul
              ((1 - (2 : ℝ)) ^ ((((5 : ℤ) - (3 : ℤ) : ℤ) : ℝ) / (((4 : ℤ) : ℤ) : ℝ))))
    ∧ (Risk.CertainLossPercentage (Item.fixed (Value.dummy "CAD" 10) 0) 2).currency
          itemAssesible
        = itemAssesible.currency (Item.fixed (Value.dummy "CAD" 10) 0) := by
  refine ⟨rfl, ?_, by decide, ?_, by decide, ?_, ?_⟩
  · exact (C7_risk_assess_semantics itemAssesible 5).1 _ 2 _ rfl
  · exact (C7_risk_assess_semantics itemAssesible 5).2.1 _ 2 3 7 (by decide)
  · exact (C7_risk_assess_semantics itemAssesible 5).2.2.1 _ 2 4 3 _ (by decide) rfl
  · exact (C7_risk_assess_semantics itemAssesible 5).2.2.2.1 _ 2

/-! ## The interest-and-deltas walk (C1) -/

/-- On a delta list sorted ascending by timestamp, the early-stopping loop
of `Item::assess` computes the same anchor and book as the spec-side walk
over exactly the deltas with timestamp `≤ time`: the break is a safe early
stop, a delta dated exactly at `time` is applied, later deltas never. -/
theorem deltaLoop_eq_specWalk (i : Interest) (time : ℤ) :
    ∀ ds : List (ℤ × Value), ds.Pairwise (fun a b => a.1 ≤ b.1) →
      ∀ (incep : ℤ) (book : Value),
      deltaLoop i time incep book ds
        = specDeltaWalk i incep book (ds.filter (fun d => decide (d.1 ≤ time))) := by
  intro ds
  induction ds with
  | nil => intro _ incep book; simp [deltaLoop, specDeltaWalk]
  | cons hd rest ih =>
      intro hpw incep book
      obtain ⟨hhead, htail⟩ := List.pairwise_cons.mp hpw
      obtain ⟨rt, p⟩ := hd
      by_cases h : time < rt
      · have hfhead : decide (rt ≤ time) = false := by simp [not_le.mpr h]
        have hfrest : rest.filter (fun d => decide (d.1 ≤ time)) = [] := by
          rw [List.filter_eq_nil_iff]
          intro a ha
          simp only [decide_eq_true_eq]
          exact not_le.mpr (lt_of_lt_of_le h (hhead a ha))
        simp [deltaLoop, h, List.filter_cons, hfhead, hfrest, specDeltaWalk]
      · have hthead : decide (rt ≤ time) = true := by simp [not_lt.mp h]
        simp only [deltaLoop, if_neg h, List.filter_cons, hthead, if_true]
        simp only [specDeltaWalk]
        cases (i.apply incep rt book).add p with
        | panic => rfl
        | ok nb => exact ih htail rt nb

/-- C1: on an instrument with an interest model and a non-empty,
timestamp-sorted delta list, `assess time` is the walk over exactly the
deltas with timestamp `≤ time` (a delta dated at `time` is applied, later
deltas never), starting from the book value anchored at inception,
followed by a final compounding from the last anchor to `time`. -/
theorem C1_assess_interest_deltas_walk (it : Item) (i : Interest) (time : ℤ)
    (hi : it.interest = some i) (hne : it.deltas ≠ [])
    (hs : it.deltas.Pairwise (fun a b => a.1 ≤ b.1)) :
    it.assess time
      = RustResult.map (fun pr => i.apply pr.1 time pr.2)
          (specDeltaWalk i it.inception it.book_value
            (it.deltas.filter (fun d => decide (d.1 ≤ time)))) := by
  have hemp : it.deltas.isEmpty = false := by simpa [List.isEmpty_iff] using hne
  rw [Item.assess, hemp]
  simp only [Bool.false_eq_true, if_false, hi]
  rw [deltaLoop_eq_specWalk i time it.deltas hs it.inception it.book_value]
  cases hw : specDeltaWalk i it.inception it.book_value
      (it.deltas.filter (fun d => decide (d.1 ≤ time))) with
  | panic => rfl
  | ok pr => obtain ⟨a, b⟩ := pr; rfl

/-- Witness for C1: two deltas at timestamps 5 and 20, assessed at time
10 — only the first is inside the filtered walk. -/
theorem C1_assess_interest_deltas_walk_witness :
    ({ book_value := Value.dummy "CAD" 10, interest := some { percent := 1, period := 2 },
       inception := 0, children := [],
       deltas := [((5 : ℤ), Value.dummy "CAD" 3), ((20 : ℤ), Value.dummy "CAD" 4)],
       payouts := [] } : Item).interest = some { percent := 1, period := 2 }
    ∧ ([((5 : ℤ), Value.dummy "CAD" 3), ((20 : ℤ), Value.dummy "CAD" 4)]
        : List (ℤ × Value)) ≠ []
    ∧ ([((5 : ℤ), Value.dummy "CAD" 3), ((20 : ℤ), Value.dummy "CAD" 4)]
        : List (ℤ × Value)).Pairwise (fun a b => a.1 ≤ b.1)
    ∧ ({ book_value := Value.dummy "CAD" 10, interest := some { percent := 1, period := 2 },
         inception := 0, children := [],
         deltas := [((5 : ℤ), Value.dummy "CAD" 3), ((20 : ℤ), Value.dummy "CAD" 4)],
         payouts := [] } : Item).assess 10
      = RustResult.map
          (fun pr => Interest.apply { percent := 1, period := 2 } pr.1 10 pr.2)
          (specDeltaWalk { percent := 1, period := 2 } 0 (Value.dummy "CAD" 10)
            (([((5 : ℤ), Value.dummy "CAD" 3), ((20 : ℤ), Value.dummy "CAD" 4)]
              : List (ℤ × Value)).filter (fun d => decide (d.1 ≤ (10 : ℤ))))) := by
  refine ⟨rfl, by simp, by decide, ?_⟩
  exact C1_assess_interest_deltas_walk _ _ 10 rfl (by simp) (by decide)

/-! ## Portfolio arena (C8, C10) -/

/-- A key found in the left part of an arena is found in the whole. -/
theorem getEntry_append_left (l1 l2 : List (ItemKey × Item)) (key : ItemKey) (p : Item)
    (h : getEntry l1 key = some p) : getEntry (l1 ++ l2) key = some p := by
  induction l1 with
  | nil => simp [getEntry] at h
  | cons e rest ih =>
      obtain ⟨k, v⟩ := e
      by_cases hk : k = key
      · simp [getEntry, hk] at h ⊢; exact h
      · simp only [getEntry, if_neg hk] at h ⊢
        exact ih h

/-- A key absent from the left part of an arena is resolved in the right
part. -/
theorem getEntry_append_none (l1 l2 : List (ItemKey × Item)) (key : ItemKey)
    (h : getEntry l1 key = none) : getEntry (l1 ++ l2) key = getEntry l2 key := by
  induction l1 with
  | nil => simp
  | cons e rest ih =>
      obtain ⟨k, v⟩ := e
      by_cases hk : k = key
      · simp [getEntry, hk] at h
      · simp only [getEntry, if_neg hk] at h ⊢
        exact ih h

/-- `Item::assess` never reads the `children` field: changing it does not
change the assessment. -/
theorem assess_ignores_children (it : Item) (cs : List ItemKey) (t : ℤ) :
    Item.assess { it with children := cs } t = it.assess t := rfl

/-- Replacing one arena entry by the same item with different `children`
leaves every entry's assessment unchanged. -/
theorem setEntry_map_assess (l : List (ItemKey × Item)) (key : ItemKey) (p : Item)
    (cs : List ItemKey) (t : ℤ) (h : getEntry l key = some p) :
    (setEntry l key { p with children := cs }).map (fun e => e.2.assess t)
      = l.map (fun e => e.2.assess t) := by
  induction l with
  | nil => rfl
  | cons e rest ih =>
      obtain ⟨k, v⟩ := e
      by_cases hk : k = key
      · simp only [getEntry, if_pos hk] at h
        obtain rfl : v = p := by injection h
        simp only [setEntry, if_pos hk, List.map_cons]
        rw [assess_ignores_children]
      · simp only [getEntry, if_neg hk] at h
        simp only [setEntry, if_neg hk, List.map_cons]
        rw [ih h]

/-- Collecting a list of successes yields the list of their values. -/
theorem collect_map_ok {α : Type} (vs : List α) :
    RustResult.collect (vs.map RustResult.ok) = RustResult.ok vs := by
  induction vs with
  | nil => rfl
  | cons v rest ih => simp [RustResult.collect, ih, RustResult.map]

/-- C8: the portfolio total is the compensated summation of the
assessments of *every* arena entry in iteration order, irrespective of
parent/child relationships; inserting an instrument with `add_child`
yields the same portfolio assessment as inserting it top-level with
`add`; and an item's own assessment is never adjusted by its `children`
list. -/
theorem C8_book_assess_sums_every_entry :
    (∀ (b : Book) (t : ℤ) (vs : List Value),
      b.entries.map (fun e => e.2.assess t) = vs.map RustResult.ok →
      b.assess t = RustResult.ok (kahan_sum vs)) ∧
    (∀ (b : Book) (new : Item) (parent : ItemKey) (p : Item) (t : ℤ),
      getEntry b.entries parent = some p →
      ((b.add_child new parent).1).assess t = ((b.add new).1).assess t) ∧
    (∀ (it : Item) (cs : List ItemKey) (t : ℤ),
      Item.assess { it with children := cs } t = it.assess t) := by
  refine ⟨?_, ?_, ?_⟩
  · intro b t vs h
    rw [Book.assess, h, collect_map_ok, RustResult.map]
  · intro b new parent p t hp
    have hp' : getEntry (b.entries ++ [(b.nextKey, new)]) parent = some p :=
      getEntry_append_left _ _ _ _ hp
    simp only [Book.add_child, Book.add, hp']
    rw [Book.assess, Book.assess]
    rw [setEntry_map_assess _ _ _ _ _ hp']
  · intro it cs t
    exact assess_ignores_children it cs t

/-- Witness for C8 on a one-entry portfolio. -/
theorem C8_book_assess_sums_every_entry_witness :
    ({ nextKey := 1, entries := [(0, Item.fixed (Value.dummy "CAD" 5) 0)] } : Book).entries.map
        (fun e => e.2.assess 0) = [Value.dummy "CAD" 5].map RustResult.ok
    ∧ ({ nextKey := 1, entries := [(0, Item.fixed (Value.dummy "CAD" 5) 0)] } : Book).assess 0
      = RustResult.ok (kahan_sum [Value.dummy "CAD" 5])
    ∧ getEntry [(0, Item.fixed (Value.dummy "CAD" 5) 0)] 0
      = some (Item.fixed (Value.dummy "CAD" 5) 0)
    ∧ ((({ nextKey := 1, entries := [(0, Item.fixed (Value.dummy "CAD" 5) 0)] } : Book).add_child
          (Item.fixed (Value.dummy "CAD" 7) 0) 0).1).assess 0
      = ((({ nextKey := 1, entries := [(0, Item.fixed (Value.dummy "CAD" 5) 0)] } : Book).add
          (Item.fixed (Value.dummy "CAD" 7) 0)).1).assess 0
    ∧ Item.assess { Item.fixed (Value.dummy "CAD" 5) 0 with children := [3] } 0
      = (Item.fixed (Value.dummy "CAD" 5) 0).assess 0 := by
  refine ⟨rfl, ?_, rfl, ?_, ?_⟩
  · exact C8_book_assess_sums_every_entry.1 _ 0 [Value.dummy "CAD" 5] rfl
  · exact C8_book_assess_sums_every_entry.2.1 _ _ 0 (Item.fixed (Value.dummy "CAD" 5) 0) 0 rfl
  · exact C8_book_assess_sums_every_entry.2.2 _ [3] 0

/-- C10: `add_child` inserts the new instrument into the arena *before*
resolving the parent handle; on a resolving parent it links the fresh key
into the parent's children and returns it, and on an unresolved parent it
panics — with the new instrument already inserted, so the failed
operation has changed the arena (not atomic). -/
theorem C10_add_child_inserts_then_links :
    (∀ (b : Book) (new : Item) (parent : ItemKey) (p : Item),
      getEntry b.entries parent = some p →
      b.add_child new parent
        = ({ nextKey := b.nextKey + 1,
             entries := setEntry (b.entries ++ [(b.nextKey, new)]) parent
               { p with children := p.children ++ [b.nextKey] } },
           RustResult.ok b.nextKey)) ∧
    (∀ (b : Book) (new : Item) (parent : ItemKey),
      getEntry b.entries parent = none → parent ≠ b.nextKey →
      b.add_child new parent
        = ({ nextKey := b.nextKey + 1, entries := b.entries ++ [(b.nextKey, new)] },
           RustResult.panic)) := by
  constructor
  · intro b new parent p hp
    have hp' : getEntry (b.entries ++ [(b.nextKey, new)]) parent = some p :=
      getEntry_append_left _ _ _ _ hp
    simp [Book.add_child, hp']
  · intro b new parent hp hne
    have hnone : getEntry (b.entries ++ [(b.nextKey, new)]) parent = none := by
      rw [getEntry_append_none _ _ _ hp]
      have : ¬ b.nextKey = parent := fun h => hne h.symm
      simp [getEntry, this]
    simp [Book.add_child, hnone]

/-- Witness for C10: linking under an existing parent, and the
non-atomic panic on a dangling parent handle in the empty book. -/
theorem C10_add_child_inserts_then_links_witness :
    getEntry [(0, Item.fixed (Value.dummy "CAD" 5) 0)] 0
        = some (Item.fixed (Value.dummy "CAD" 5) 0)
    ∧ ({ nextKey := 1, entries := [(0, Item.fixed (Value.dummy "CAD" 5) 0)] } : Book).add_child
          (Item.fixed (Value.dummy "CAD" 7) 0) 0
      = ({ nextKey := 2,
           entries := setEntry ([(0, Item.fixed (Value.dummy "CAD" 5) 0)] ++
               [(1, Item.fixed (Value.dummy "CAD" 7) 0)]) 0
             { Item.fixed (Value.dummy "CAD" 5) 0 with
                 children := (Item.fixed (Value.dummy "CAD" 5) 0).children ++ [1] } },
         RustResult.ok 1)
    ∧ getEntry Book.default.entries 5 = none
    ∧ ((5 : ItemKey) ≠ Book.default.nextKey)
    ∧ Book.default.add_child (Item.fixed (Value.dummy "CAD" 7) 0) 5
      = ({ nextKey := 1, entries := [(0, Item.fixed (Value.dummy "CAD" 7) 0)] },
         RustResult.panic) := by
  refine ⟨rfl, ?_, rfl, by decide, ?_⟩
  · exact C10_add_child_inserts_then_links.1 _ _ 0 (Item.fixed (Value.dummy "CAD" 5) 0) rfl
  · have h := C10_add_child_inserts_then_links.2 Book.default
      (Item.fixed (Value.dummy "CAD" 7) 0) 5 rfl (by decide)
    simpa [Book.default] using h

/-! ## Insertion-order invariance of deltas (C9) -/

/-- Repeatedly appending deltas with `Item::add_delta`. -/
def foldAddDeltas (it : Item) (l : List (ℤ × Value)) : Item :=
  l.foldl (fun acc d => acc.add_delta d.1 d.2) it

/-- The delta fold only rewrites the `deltas` field. -/
theorem foldAddDeltas_update (l : List (ℤ × Value)) :
    ∀ it : Item, foldAddDeltas it l = { it with deltas := (foldAddDeltas it l).deltas } := by
  induction l with
  | nil => intro it; rfl
  | cons d rest ih => intro it; exact ih (it.add_delta d.1 d.2)

/-- The deltas after the fold are a permutation of the original deltas
followed by the appended ones. -/
theorem foldAddDeltas_perm (l : List (ℤ × Value)) :
    ∀ it : Item, (foldAddDeltas it l).deltas.Perm (it.deltas ++ l) := by
  induction l with
  | nil => intro it; simp [foldAddDeltas]
  | cons d rest ih =>
      intro it
      have h1 : (foldAddDeltas it (d :: rest)).deltas
          = (foldAddDeltas (it.add_delta d.1 d.2) rest).deltas := rfl
      rw [h1]
      refine (ih (it.add_delta d.1 d.2)).trans ?_
      have h2 : (it.add_delta d.1 d.2).deltas ++ rest
          = ((it.deltas ++ [d]).mergeSort (fun a b => a.1 ≤ b.1)) ++ rest := rfl
      rw [h2]
      refine ((List.mergeSort_perm (it.deltas ++ [d]) _).append_right rest).trans ?_
      rw [List.append_assoc]
      rfl

/-- After at least one `add_delta`, the delta list is sorted ascending by
timestamp (the last insertion re-sorted it). -/
theorem foldAddDeltas_sorted (l : List (ℤ × Value)) (hne : l ≠ []) (it : Item) :
    (foldAddDeltas it l).deltas.Pairwise (fun a b => a.1 ≤ b.1) := by
  rcases List.eq_nil_or_concat l with rfl | ⟨l', d, rfl⟩
  · exact absurd rfl hne
  · have h1 : foldAddDeltas it (l'.concat d)
        = (foldAddDeltas it l').add_delta d.1 d.2 := by
      rw [foldAddDeltas, List.concat_eq_append, List.foldl_concat]
      rfl
    rw [h1, Item.add_delta]
    have hs := @List.sorted_mergeSort (ℤ × Value)
      (fun a b => decide (a.1 ≤ b.1))
      (fun a b c hab hbc => by
        simp only [decide_eq_true_eq] at hab hbc ⊢
        exact le_trans hab hbc)
      (fun a b => by
        simp only [Bool.or_eq_true, decide_eq_true_eq]
        exact le_total a.1 b.1)
      ((foldAddDeltas it l').deltas ++ [d])
    exact hs.imp (fun h => by simpa using h)

/-- Strict ordering of deltas by timestamp. -/
def deltaBefore (a b : ℤ × Value) : Prop := a.1 < b.1

instance : IsAntisymm (ℤ × Value) deltaBefore :=
  ⟨fun _ _ h1 h2 => absurd (lt_trans h1 h2) (lt_irrefl _)⟩

/-- A timestamp-sorted delta list with pairwise-distinct timestamps is
strictly sorted. -/
theorem sorted_strict_of_nodup_keys (ds : List (ℤ × Value))
    (hs : ds.Pairwise (fun a b => a.1 ≤ b.1))
    (hnd : (ds.map Prod.fst).Nodup) : ds.Pairwise deltaBefore := by
  have hne : ds.Pairwise (fun a b => a.1 ≠ b.1) := List.pairwise_map.mp hnd
  exact (hs.and hne).imp (fun h => lt_of_le_of_ne h.1 h.2)

/-- C9: appending the same finite set of timestamped deltas (with
pairwise-distinct timestamps) to an instrument in any insertion order
yields an identical `assess` result at every time, because `add_delta`
re-sorts the list ascending by timestamp before use. -/
theorem C9_add_delta_order_invariance (it : Item) (l1 l2 : List (ℤ × Value)) (t : ℤ)
    (hperm : l1.Perm l2)
    (hnodup : ((it.deltas ++ l1).map Prod.fst).Nodup) :
    (foldAddDeltas it l1).assess t = (foldAddDeltas it l2).assess t := by
  cases l1 with
  | nil =>
      have h2 : l2 = [] := hperm.symm.eq_nil
      rw [h2]
  | cons d l1' =>
      have hne1 : (d :: l1') ≠ [] := by simp
      have hne2 : l2 ≠ [] := by
        intro h
        rw [h] at hperm
        exact absurd hperm.eq_nil (by simp)
      have hperm1 := foldAddDeltas_perm (d :: l1') it
      have hperm2 := foldAddDeltas_perm l2 it
      have hbase : (it.deltas ++ (d :: l1')).Perm (it.deltas ++ l2) :=
        List.Perm.append_left it.deltas hperm
      have hnd1 : ((foldAddDeltas it (d :: l1')).deltas.map Prod.fst).Nodup :=
        ((hperm1.map Prod.fst).nodup_iff).mpr hnodup
      have hnd2 : ((foldAddDeltas it l2).deltas.map Prod.fst).Nodup :=
        (((hperm2.trans hbase.symm).map Prod.fst).nodup_iff).mpr hnodup
      have hs1 : (foldAddDeltas it (d :: l1')).deltas.Pairwise deltaBefore :=
        sorted_strict_of_nodup_keys _ (foldAddDeltas_sorted _ hne1 it) hnd1
      have hs2 : (foldAddDeltas it l2).deltas.Pairwise deltaBefore :=
        sorted_strict_of_nodup_keys _ (foldAddDeltas_sorted _ hne2 it) hnd2
      have hdperm : (foldAddDeltas it (d :: l1')).deltas.Perm (foldAddDeltas it l2).deltas :=
        hperm1.trans (hbase.trans hperm2.symm)
      have hdeq : (foldAddDeltas it (d :: l1')).deltas = (foldAddDeltas it l2).deltas :=
        List.eq_of_perm_of_sorted hdperm hs1 hs2
      rw [foldAddDeltas_update (d :: l1') it, foldAddDeltas_update l2 it, hdeq]

/-- Witness for C9: two deltas inserted in both orders into a fixed
instrument give the same assessment. -/
theorem C9_add_delta_order_invariance_witness :
    ([((1 : ℤ), Value.dummy "CAD" 2), ((2 : ℤ), Value.dummy "CAD" 3)]
        : List (ℤ × Value)).Perm
      [((2 : ℤ), Value.dummy "CAD" 3), ((1 : ℤ), Value.dummy "CAD" 2)]
    ∧ (((Item.fixed (Value.dummy "CAD" 7) 0).deltas
          ++ [((1 : ℤ), Value.dummy "CAD" 2), ((2 : ℤ), Value.dummy "CAD" 3)]).map
            Prod.fst).Nodup
    ∧ (foldAddDeltas (Item.fixed (Value.dummy "CAD" 7) 0)
          [((1 : ℤ), Value.dummy "CAD" 2), ((2 : ℤ), Value.dummy "CAD" 3)]).assess 5
      = (foldAddDeltas (Item.fixed (Value.dummy "CAD" 7) 0)
          [((2 : ℤ), Value.dummy "CAD" 3), ((1 : ℤ), Value.dummy "CAD" 2)]).assess 5 := by
  refine ⟨List.Perm.swap _ _ _, by decide, ?_⟩
  exact C9_add_delta_order_invariance (Item.fixed (Value.dummy "CAD" 7) 0)
    _ _ 5 (List.Perm.swap _ _ _) (by decide)
